import Mathlib

/-!
Verification of the parallel-workload orchestrator
(`misc/python/materialize/parallel_workload/parallel_workload.py`).

The development shallowly embeds the orchestrator's `run` and `main`
functions: the error-histogram aggregation performed at teardown, the
complexity-tier weight vectors, the population/thread construction with
scenario injection, the monitor loop with its forced-deadline writes, and
the CLI port dictionary.  Stateful code becomes explicit state passing;
the wall clock becomes an explicit trace of observed timestamps; the
pieces of the repository that live outside this file (the settings enums,
the action catalog, the Worker class) are modelled from the specification
and are marked as such.
-/

/-! ## Error histograms

The teardown phase aggregates `worker.ignored_errors`, a
`defaultdict[str, Counter[type[Action]]]`: an outer dict keyed by the
error kind (a string), whose values are `Counter`s keyed by the action
class.  Dicts are embedded as association lists in insertion order;
keys of a Python dict are unique, which the theorems carry as a
`Nodup` well-formedness hypothesis. -/

/-- Key of the inner `Counter`: the action class (`type[Action]`,
identified by its name). -/
abbrev ActionClass := String

/-- Key of the outer dict: the error kind string. -/
abbrev ErrKind := String

/-- A Python `Counter[type[Action]]` as an association list. -/
abbrev Counter := List (ActionClass × Nat)

/-- A `defaultdict[str, Counter[type[Action]]]` as an association list. -/
abbrev Hist := List (ErrKind × Counter)

/-- Python dict lookup with default 0: `counter[k]` for a `Counter`. -/
def counterGet : Counter → ActionClass → Nat
  | [], _ => 0
  | (k, v) :: rest, a => if k = a then v else counterGet rest a

/-- Python `counter[k] += v` on a `Counter` (insert at the end when the
key is absent, as dict insertion does). -/
def counterIncr : Counter → ActionClass → Nat → Counter
  | [], k, v => [(k, v)]
  | (k', v') :: rest, k, v =>
    if k' = k then (k', v' + v) :: rest else (k', v') :: counterIncr rest k v

/-- Python `self.update(other)` on `Counter`s: add `other`'s counts into
`self`, key by key, in `other`'s iteration order. -/
def counterUpdate (self other : Counter) : Counter :=
  other.foldl (fun s kv => counterIncr s kv.1 kv.2) self

/-- Total count summed over an association list's entries, at one key.
For the unique-keyed lists produced by Python dicts this coincides with
`counterGet` (proved below). -/
def counterMass : Counter → ActionClass → Nat
  | [], _ => 0
  | (k, v) :: rest, a => (if k = a then v else 0) + counterMass rest a

/-- Sum of all of a counter's values (`sum(counter.values())`). -/
def counterTotal (c : Counter) : Nat :=
  (c.map (fun kv => kv.2)).sum

/-- The keys of a counter, in order. -/
def counterKeys (c : Counter) : List ActionClass :=
  c.map (fun kv => kv.1)

/-- Well-formedness of a counter as a dict image: unique keys. -/
abbrev WFCounter (c : Counter) : Prop := (counterKeys c).Nodup

/-- Outer dict lookup, defaulting to the empty counter
(a fresh `Counter()` as `defaultdict(Counter)` would create). -/
def histGet : Hist → ErrKind → Counter
  | [], _ => []
  | (e, c) :: rest, e' => if e = e' then c else histGet rest e'

/-- The step `ignored_errors[e].update(c)` on a `defaultdict(Counter)`: update the
counter stored at `e` in place, default-constructing it when absent. -/
def histUpdateAt : Hist → ErrKind → Counter → Hist
  | [], e, c => [(e, counterUpdate [] c)]
  | (e', c') :: rest, e, c =>
    if e' = e then (e', counterUpdate c' c) :: rest
    else (e', c') :: histUpdateAt rest e c

/-- Total count stored in an outer association list at one
(error kind, action class) key, summed over duplicate entries. -/
def histMass : Hist → ErrKind → ActionClass → Nat
  | [], _, _ => 0
  | (e, c) :: rest, e', a => (if e = e' then counterMass c a else 0) + histMass rest e' a

/-- The outer keys of a histogram, in order. -/
def histKeys (h : Hist) : List ErrKind :=
  h.map (fun ec => ec.1)

/-- Well-formedness of a histogram as a dict of dicts: unique outer keys
and every inner counter unique-keyed. -/
abbrev WFHist (h : Hist) : Prop :=
  (histKeys h).Nodup ∧ ∀ ec ∈ h, WFCounter ec.2

/-! ## Worker state and the monitor loop (`run`, lines 260-311)

`Worker` itself lives in `worker.py`, outside this repository slice.
Modelled from the spec: a worker owns a live query counter incremented
on each successful execution (§4.2), a reference to the shared deadline
timestamp, and an error histogram keyed by (error-kind, operation-class).
Timestamps are rationals; each `time.time()` call reads the next
observation from an explicit trace. -/

/-- The mutable per-worker state the orchestrator touches:
`num_queries`, `end_time` and `ignored_errors`. -/
structure WorkerSt where
  num_queries : Nat
  end_time : ℚ
  ignored_errors : Hist
deriving DecidableEq, Inhabited

/-- One iteration of the monitor loop, driven by trace data:
`tCheck` is the `time.time()` value read by the `while` condition;
`deadIdx` is the index of the first thread observed not alive, if any;
`tFail` is the `time.time()` value written to every worker's deadline on
thread failure; `incs` are the successful-query completions each worker
records during this iteration's sleep; `interrupted` signals a
`KeyboardInterrupt` delivered during the sleep, handled at time `tInt`. -/
structure Iter where
  tCheck : ℚ
  deadIdx : Option Nat
  tFail : ℚ
  incs : List Nat
  interrupted : Bool
  tInt : ℚ
deriving DecidableEq

/-- The monitor's state: the worker list and the local `num_queries`
accumulator (line 260 initialises it to 0). -/
structure RunState where
  workers : List WorkerSt
  acc : Nat
deriving DecidableEq

/-- How the `try` block ends: the `while` condition turning false, the
`raise` on a dead thread (carrying the thread name), a caught
`KeyboardInterrupt`, or the trace running out while the loop would
continue (a model artifact, excluded by hypothesis in the theorems). -/
inductive LoopExit where
  | timeUp
  | failed (name : String)
  | interrupted
  | ranOut
deriving DecidableEq

/-- Worker threads incrementing their counters during a sleep interval. -/
def applyIncs (ws : List WorkerSt) (incs : List Nat) : List WorkerSt :=
  List.zipWith (fun w i => { w with num_queries := w.num_queries + i }) ws incs

/-- Sum of all workers' live counters, as read by
`num_queries += worker.num_queries` (line 276). -/
def sumCounters (ws : List WorkerSt) : Nat :=
  (ws.map (fun w => w.num_queries)).sum

/-- The reset `worker.num_queries = 0` for every worker (line 277). -/
def resetCounters (ws : List WorkerSt) : List WorkerSt :=
  ws.map (fun w => { w with num_queries := 0 })

/-- The write `worker.end_time = time.time()` for every worker (lines 266, 281).
The source calls `time.time()` once per worker; the model uses the
trace's one observation for the whole write event. -/
def forceEnd (t : ℚ) (ws : List WorkerSt) : List WorkerSt :=
  ws.map (fun w => { w with end_time := t })

/-- The `raise Exception(f"Thread {thread.name} failed, exiting")`
message of line 267. -/
def failMessage (nm : String) : String :=
  "Thread " ++ nm ++ " failed, exiting"

/-- The monitor loop (lines 261-281): while the current time is before
`end_time`, check thread liveness (forcing every deadline and raising if
a thread died), sleep while workers run, then fold each worker's counter
into the accumulator and reset it.  A `KeyboardInterrupt` during the
sleep forces every deadline and leaves the loop. -/
def monitorLoop (endTime : ℚ) (threadNames : List String) :
    List Iter → RunState → RunState × LoopExit
  | [], s => (s, .ranOut)
  | it :: rest, s =>
    if it.tCheck < endTime then
      match it.deadIdx with
      | some i =>
        ({ s with workers := forceEnd it.tFail s.workers },
         .failed (threadNames.getD i ""))
      | none =>
        let ws1 := applyIncs s.workers it.incs
        if it.interrupted then
          ({ workers := forceEnd it.tInt ws1, acc := s.acc }, .interrupted)
        else
          monitorLoop endTime threadNames rest
            { workers := resetCounters ws1, acc := s.acc + sumCounters ws1 }
    else (s, .timeUp)

/-- Teardown aggregation (lines 294-298): fold every worker's
`ignored_errors` into one combined histogram. -/
def aggregateErrors (ws : List WorkerSt) : Hist :=
  ws.foldl
    (fun acc w => w.ignored_errors.foldl (fun a ec => histUpdateAt a ec.1 ec.2) acc)
    []

/-- The `num_failures` total (lines 299-301): the sum of every count in the
aggregated histogram. -/
def numFailures (h : Hist) : Nat :=
  (h.map (fun ec => counterTotal ec.2)).sum

/-- What the end of `run` produces: the printed executed total and
failure percentage (`none` when the run ends abnormally and the summary
is never printed), whether the threads were joined, whether the
databases were dropped, how the loop exited, the `raise` message if any,
and the final worker states. -/
structure RunOutcome where
  printedQueries : Option Nat
  printedFailed : Option ℚ
  joined : Bool
  toreDown : Bool
  exit : LoopExit
  raisedMsg : Option String
  finalWorkers : List WorkerSt
deriving DecidableEq

/-- The tail of `run` after the threads are started (lines 260-311): run
the monitor loop; on the dead-thread `raise` the exception propagates
(only `KeyboardInterrupt` is caught), so the joins, the database drops
and the summary are all skipped.  Otherwise join every thread — during
which the workers record `tail` further successful queries before
observing the deadline — drop the databases, aggregate the error
histograms and print `num_queries` with the failure percentage
`100.0 * num_failures / num_queries if num_queries else 0` (line 303). -/
def finishRun (endTime : ℚ) (threadNames : List String) (iters : List Iter)
    (tail : List Nat) (s : RunState) : RunOutcome :=
  match monitorLoop endTime threadNames iters s with
  | (s', .failed nm) =>
    { printedQueries := none, printedFailed := none, joined := false,
      toreDown := false, exit := .failed nm,
      raisedMsg := some (failMessage nm), finalWorkers := s'.workers }
  | (s', .ranOut) =>
    { printedQueries := none, printedFailed := none, joined := false,
      toreDown := false, exit := .ranOut, raisedMsg := none,
      finalWorkers := s'.workers }
  | (s', e) =>
    let ws := applyIncs s'.workers tail
    let nf := numFailures (aggregateErrors ws)
    { printedQueries := some s'.acc,
      printedFailed :=
        some (if s'.acc = 0 then 0 else 100 * (nf : ℚ) / (s'.acc : ℚ)),
      joined := true, toreDown := true, exit := e, raisedMsg := none,
      finalWorkers := ws }

/-- The successful queries the monitor loop's iterations consume before
it exits: the companion recursion to `monitorLoop` (an iteration that
exits on a dead thread applies no increments; an interrupted iteration
applies its own and stops). -/
def consumedQueries (endTime : ℚ) : List Iter → Nat
  | [] => 0
  | it :: rest =>
    if it.tCheck < endTime then
      match it.deadIdx with
      | some _ => 0
      | none =>
        it.incs.sum + (if it.interrupted then 0 else consumedQueries endTime rest)
    else 0

/-- The total number of successfully executed queries across all workers
over the whole run, for a trace that reaches teardown: the counters'
initial content, everything recorded while the monitor loop ran, and the
tail recorded between the loop's exit and the workers observing the
deadline.  This is the spec-side quantity the printed total is compared
against. -/
def totalExecuted (endTime : ℚ) (iters : List Iter) (tail : List Nat)
    (s : RunState) : Nat :=
  sumCounters s.workers + consumedQueries endTime iters + tail.sum

/-- Every worker's stored deadline is at most `e0`. -/
abbrev EndsLE (e0 : ℚ) (ws : List WorkerSt) : Prop :=
  ∀ w ∈ ws, w.end_time ≤ e0

/-- Every forced-write observation in the trace is at most `e0`. -/
abbrev ForcedWithin (e0 : ℚ) (iters : List Iter) : Prop :=
  ∀ it ∈ iters, it.tFail ≤ e0 ∧ it.tInt ≤ e0

/-- Every iteration carries one increment per worker. -/
abbrev IncsMatch (iters : List Iter) (n : Nat) : Prop :=
  ∀ it ∈ iters, it.incs.length = n

/-- The run reached teardown: the loop ended by time or by a caught
interrupt. -/
abbrev NormalExit (o : RunOutcome) : Prop :=
  o.exit = .timeUp ∨ o.exit = .interrupted

/-! ## Population construction (`run`, lines 154-258)

Modelled from the spec where the collaborator is outside this slice:
`Complexity` and `Scenario` come from `settings.py` (the spec lists the
tiers full/ddl, reduced/dml, read-only and the scenarios regression,
rename, cancel, kill, backup-restore; a scenario is represented here by
its value string so that values outside the recognised set are
expressible), and the five action categories with their per-class lists,
weight vectors and autocommit flags come from `action.py` (abstracted as
an `ActionCatalog`).  Random streams are identified by allocation order:
`run` allocates `rng` and then, once, `worker_rng` (line 156). -/

/-- Modelled from the spec: the `Complexity` enum of `settings.py`, with
the members `run` compares against (lines 159-166). -/
inductive Complexity where
  | DDL
  | DML
  | Read
deriving DecidableEq

/-- The per-tier category weight vectors (lines 159-166; the source
annotates them `list[float]`, with integer literals). -/
def weightsFor : Complexity → List Nat
  | .DDL => [60, 30, 30, 30, 10]
  | .DML => [60, 30, 30, 30, 0]
  | .Read => [60, 30, 0, 0, 0]

/-- An operation instance, tagged by where it came from: the `idx`-th
class of a base category, or one of the three scenario actions. -/
inductive ActionKind where
  | base (cat : Fin 5) (idx : Nat)
  | cancel
  | kill
  | backupRestore
deriving DecidableEq

/-- Modelled from the spec: the action catalog of `action.py` — five
categories, each with an operation-class list (kept abstract through its
length), a per-class weight vector and an autocommit flag. -/
structure ActionCatalog where
  classCount : Fin 5 → Nat
  classWeights : Fin 5 → List Nat
  autocommit : Fin 5 → Bool

/-- A constructed `Worker` (constructor call of lines 180-187 and the
scenario blocks): the random stream it was handed, its operation
instances paired with the stream each was constructed with, the
per-class weights, the shared deadline, the autocommit flag and the
privileged flag. -/
structure WorkerModel where
  rng : Nat
  actions : List (ActionKind × Nat)
  weights : List Nat
  end_time : ℚ
  autocommit : Bool
  system : Bool
deriving DecidableEq

/-- A started `threading.Thread`: its name and the connection target it
runs the worker against (the `ports` key and the user). -/
structure ThreadModel where
  name : String
  portKey : String
  user : String
deriving DecidableEq

/-- The stream `rng = random.Random(random.randrange(SEED_RANGE))`
(line 79), identified by allocation order. -/
def rngStream : Nat := 0

/-- The stream `worker_rng = random.Random(rng.randrange(SEED_RANGE))`
(line 156) — allocated once, before the worker loop. -/
def workerRngStream : Nat := 1

/-- The oracle standing for `worker_rng.choices([...], weights)[0]`
(lines 167-176): the category index drawn for slot `i`, with the tier's
weight vector recorded as the draw's distribution. -/
def drawCategory (_weights : List Nat) (pick : Nat → Fin 5) (i : Nat) : Fin 5 :=
  pick i

/-- The worker built for one base slot (lines 177-187): every operation
instance is constructed with `worker_rng`, and the worker itself
receives `worker_rng`, the category's weights and autocommit flag, the
shared deadline, and `system=False`. -/
def mkBaseWorker (cat : ActionCatalog) (k : Fin 5) (e : ℚ) : WorkerModel :=
  { rng := workerRngStream
  , actions := (List.range (cat.classCount k)).map
      (fun j => (ActionKind.base k j, workerRngStream))
  , weights := cat.classWeights k
  , end_time := e
  , autocommit := cat.autocommit k
  , system := false }

/-- The thread started for base slot `i` (lines 188-199): named
`worker_{i}`, connecting through `ports["materialized"]` as user
`materialize`. -/
def mkBaseThread (i : Nat) : ThreadModel :=
  { name := "worker_" ++ toString i, portKey := "materialized", user := "materialize" }

/-- The cancel scenario's extra worker (lines 203-210): one
`CancelAction` built with `worker_rng` and the current worker list,
weights `[1]`, `autocommit=False`, `system=True`. -/
def cancelWorker (e : ℚ) : WorkerModel :=
  { rng := workerRngStream, actions := [(ActionKind.cancel, workerRngStream)]
  , weights := [1], end_time := e, autocommit := false, system := true }

/-- The cancel scenario's thread (lines 212-217): named `cancel`,
connecting through `ports["mz_system"]` as user `mz_system`. -/
def cancelThread : ThreadModel :=
  { name := "cancel", portKey := "mz_system", user := "mz_system" }

/-- The kill scenario's extra worker (lines 221-228). -/
def killWorker (e : ℚ) : WorkerModel :=
  { rng := workerRngStream, actions := [(ActionKind.kill, workerRngStream)]
  , weights := [1], end_time := e, autocommit := false, system := false }

/-- The kill scenario's thread (lines 230-235): named `kill`. -/
def killThread : ThreadModel :=
  { name := "kill", portKey := "materialized", user := "materialize" }

/-- The backup-restore scenario's extra worker (lines 239-246). -/
def backupRestoreWorker (e : ℚ) : WorkerModel :=
  { rng := workerRngStream, actions := [(ActionKind.backupRestore, workerRngStream)]
  , weights := [1], end_time := e, autocommit := false, system := false }

/-- The backup-restore scenario's thread (lines 248-253): it is named
`kill`, the same name the kill scenario uses. -/
def backupRestoreThread : ThreadModel :=
  { name := "kill", portKey := "materialized", user := "materialize" }

/-- The scenario dispatch (lines 202-258): which extra worker and thread
a scenario contributes, or the error it raises — the `assert
composition` of the kill and backup-restore branches, or the final
`raise ValueError(f"Unknown scenario {scenario}")`. -/
def scenarioAdditions (scen : String) (comp : Bool) (e : ℚ) :
    Except String (List WorkerModel × List ThreadModel) :=
  if scen = "cancel" then
    .ok ([cancelWorker e], [cancelThread])
  else if scen = "kill" then
    if comp then .ok ([killWorker e], [killThread])
    else .error "Kill scenario only works in mzcompose"
  else if scen = "backup-restore" then
    if comp then .ok ([backupRestoreWorker e], [backupRestoreThread])
    else .error "Backup & Restore scenario only works in mzcompose"
  else if scen = "regression" ∨ scen = "rename" then
    .ok ([], [])
  else
    .error ("Unknown scenario " ++ scen)

/-- The population after the scenario dispatch: the workers and the
threads already started when `run` reaches line 260 — or, when the
dispatch raises, the workers and threads already started at the moment
of the raise, together with the error. -/
structure BuildOut where
  workers : List WorkerModel
  threads : List ThreadModel
  error : Option String
deriving DecidableEq

/-- Population construction and thread start (lines 154-258): build and
start one worker per slot — each slot's category drawn by the
weighted-choice oracle over `weightsFor c` — then run the scenario
dispatch.  Every base thread is started inside the slot loop, before the
dispatch runs. -/
def buildPopulation (cat : ActionCatalog) (c : Complexity) (scen : String)
    (n : Nat) (pick : Nat → Fin 5) (e : ℚ) (comp : Bool) : BuildOut :=
  let ws := (List.range n).map
    (fun i => mkBaseWorker cat (drawCategory (weightsFor c) pick i) e)
  let ts := (List.range n).map mkBaseThread
  match scenarioAdditions scen comp e with
  | .ok (ws2, ts2) => { workers := ws ++ ws2, threads := ts ++ ts2, error := none }
  | .error msg => { workers := ws, threads := ts, error := some msg }

/-- A catalog with one operation class per category, used to evaluate
the construction on concrete inputs. -/
def sampleCatalog : ActionCatalog :=
  { classCount := fun _ => 1, classWeights := fun _ => [1], autocommit := fun _ => true }

/-- A concrete draw oracle: every slot draws category 0. -/
def pick0 : Nat → Fin 5 := fun _ => 0

/-! ## The CLI port dictionary (`main`, lines 354-368) -/

/-- The CLI arguments of `main` that concern connection targets:
`--host`, `--port`, `--system-port`, `--http-port` (lines 354-357). -/
structure Args where
  host : String
  port : Nat
  systemPort : Nat
  httpPort : Nat
deriving DecidableEq

/-- The `ports` dict `main` builds and passes to `run` (lines 362-368).
The parsed `--port`, `--system-port` and `--http-port` values are never
read: every entry is a hardcoded literal. -/
def mainPorts (_a : Args) : List (String × Nat) :=
  [("materialized", 6875), ("mz_system", 6877), ("http", 6876),
   ("kafka", 9092), ("schema-registry", 8081)]

/-- Dict lookup in the ports dict. -/
def portsLookup : List (String × Nat) → String → Option Nat
  | [], _ => none
  | (k, v) :: rest, k' => if k = k' then some v else portsLookup rest k'

/-! ## Histogram lemmas -/

/-- Lemma: `counterIncr` raises the total count at its key by `v` and leaves
every other key's total unchanged. -/
theorem counterMass_incr (c : Counter) (k : ActionClass) (v : Nat) (a : ActionClass) :
    counterMass (counterIncr c k v) a = counterMass c a + (if k = a then v else 0) := by
  induction c with
  | nil => simp [counterIncr, counterMass]
  | cons kv rest ih =>
    obtain ⟨k', v'⟩ := kv
    by_cases h : k' = k
    · subst h
      simp only [counterIncr, if_pos rfl, counterMass]
      split_ifs <;> omega
    · simp only [counterIncr, if_neg h, counterMass, ih]
      split_ifs <;> omega

/-- Lemma: `counterUpdate` adds the two totals, key by key. -/
theorem counterMass_update (self other : Counter) (a : ActionClass) :
    counterMass (counterUpdate self other) a
      = counterMass self a + counterMass other a := by
  induction other generalizing self with
  | nil => simp [counterUpdate, counterMass]
  | cons kv rest ih =>
    obtain ⟨k, v⟩ := kv
    show counterMass (counterUpdate (counterIncr self k v) rest) a = _
    rw [ih, counterMass_incr]
    simp only [counterMass]
    split_ifs <;> omega

/-- Lemma: `histUpdateAt` adds the new counter's totals at its error kind and
leaves every other key's totals unchanged. -/
theorem histMass_updateAt (h : Hist) (e : ErrKind) (c : Counter) (e' : ErrKind)
    (a : ActionClass) :
    histMass (histUpdateAt h e c) e' a
      = histMass h e' a + (if e = e' then counterMass c a else 0) := by
  induction h with
  | nil => simp [histUpdateAt, histMass, counterMass_update, counterMass]
  | cons ec rest ih =>
    obtain ⟨e1, c1⟩ := ec
    by_cases h1 : e1 = e
    · subst h1
      simp only [histUpdateAt, if_pos rfl, histMass, counterMass_update]
      split_ifs <;> omega
    · simp only [histUpdateAt, if_neg h1, histMass, ih]
      split_ifs <;> omega

/-- Folding a histogram's entries into an accumulator adds the
histogram's totals to the accumulator's, key by key. -/
theorem histMass_fold (l : Hist) (h : Hist) (e : ErrKind) (a : ActionClass) :
    histMass (l.foldl (fun acc ec => histUpdateAt acc ec.1 ec.2) h) e a
      = histMass h e a + histMass l e a := by
  induction l generalizing h with
  | nil => simp [histMass]
  | cons ec rest ih =>
    obtain ⟨e1, c1⟩ := ec
    show histMass (rest.foldl _ (histUpdateAt h e1 c1)) e a = _
    rw [ih, histMass_updateAt]
    simp only [histMass]
    split_ifs <;> omega

/-- The teardown fold over all workers adds each worker's totals into
the accumulator, key by key. -/
theorem histMass_aggAux (ws : List WorkerSt) (acc : Hist) (e : ErrKind) (a : ActionClass) :
    histMass (ws.foldl
        (fun acc2 w => w.ignored_errors.foldl (fun a2 ec => histUpdateAt a2 ec.1 ec.2) acc2)
        acc) e a
      = histMass acc e a + (ws.map (fun w => histMass w.ignored_errors e a)).sum := by
  induction ws generalizing acc with
  | nil => simp
  | cons w rest ih =>
    show histMass (rest.foldl _ (w.ignored_errors.foldl _ acc)) e a = _
    rw [ih, histMass_fold]
    simp only [List.map_cons, List.sum_cons]
    omega

/-- The aggregated histogram's totals are the sums of the workers'. -/
theorem histMass_aggregate (ws : List WorkerSt) (e : ErrKind) (a : ActionClass) :
    histMass (aggregateErrors ws) e a
      = (ws.map (fun w => histMass w.ignored_errors e a)).sum := by
  have h := histMass_aggAux ws [] e a
  simpa [aggregateErrors, histMass] using h

/-- Unfolding lemma: the keys of a cons. -/
theorem counterKeys_cons (kv : ActionClass × Nat) (rest : Counter) :
    counterKeys (kv :: rest) = kv.1 :: counterKeys rest := rfl

/-- Unfolding lemma: the outer keys of a cons. -/
theorem histKeys_cons (ec : ErrKind × Counter) (rest : Hist) :
    histKeys (ec :: rest) = ec.1 :: histKeys rest := rfl

/-- The keys after `counterIncr`: unchanged when the key is present,
appended otherwise. -/
theorem counterKeys_incr (c : Counter) (k : ActionClass) (v : Nat) :
    counterKeys (counterIncr c k v)
      = if k ∈ counterKeys c then counterKeys c else counterKeys c ++ [k] := by
  induction c with
  | nil => simp [counterIncr, counterKeys]
  | cons kv rest ih =>
    obtain ⟨k', v'⟩ := kv
    by_cases h : k' = k
    · subst h
      simp [counterIncr, counterKeys_cons]
    · have hred : counterIncr ((k', v') :: rest) k v = (k', v') :: counterIncr rest k v := by
        simp [counterIncr, h]
      rw [hred, counterKeys_cons, counterKeys_cons, ih]
      by_cases h2 : k ∈ counterKeys rest
      · rw [if_pos h2, if_pos (show k ∈ k' :: counterKeys rest by simp [h2])]
      · rw [if_neg h2,
          if_neg (show k ∉ k' :: counterKeys rest by
            simp only [List.mem_cons, not_or]
            exact ⟨fun hh => h hh.symm, h2⟩),
          List.cons_append]

/-- Lemma: `counterIncr` keeps a counter's keys unique. -/
theorem wfCounter_incr (c : Counter) (k : ActionClass) (v : Nat) (hc : WFCounter c) :
    WFCounter (counterIncr c k v) := by
  unfold WFCounter at hc ⊢
  rw [counterKeys_incr]
  split_ifs with hm
  · exact hc
  · simp [List.nodup_append, hc, hm]

/-- Lemma: `counterUpdate` keeps a counter's keys unique. -/
theorem wfCounter_update (self other : Counter) (hc : WFCounter self) :
    WFCounter (counterUpdate self other) := by
  induction other generalizing self with
  | nil => exact hc
  | cons kv rest ih => exact ih (counterIncr self kv.1 kv.2) (wfCounter_incr _ _ _ hc)

/-- The outer keys after `histUpdateAt`: unchanged when the error kind
is present, appended otherwise. -/
theorem histKeys_updateAt (h : Hist) (e : ErrKind) (c : Counter) :
    histKeys (histUpdateAt h e c)
      = if e ∈ histKeys h then histKeys h else histKeys h ++ [e] := by
  induction h with
  | nil => simp [histUpdateAt, histKeys]
  | cons ec rest ih =>
    obtain ⟨e1, c1⟩ := ec
    by_cases h1 : e1 = e
    · subst h1
      simp [histUpdateAt, histKeys_cons]
    · have hred : histUpdateAt ((e1, c1) :: rest) e c = (e1, c1) :: histUpdateAt rest e c := by
        simp [histUpdateAt, h1]
      rw [hred, histKeys_cons, histKeys_cons, ih]
      by_cases h2 : e ∈ histKeys rest
      · rw [if_pos h2, if_pos (show e ∈ e1 :: histKeys rest by simp [h2])]
      · rw [if_neg h2,
          if_neg (show e ∉ e1 :: histKeys rest by
            simp only [List.mem_cons, not_or]
            exact ⟨fun hh => h1 hh.symm, h2⟩),
          List.cons_append]

/-- Every counter stored after `histUpdateAt` still has unique keys. -/
theorem wfCounters_updateAt (h : Hist) (e : ErrKind) (c : Counter)
    (hcs : ∀ ec ∈ h, WFCounter ec.2) :
    ∀ ec ∈ histUpdateAt h e c, WFCounter ec.2 := by
  induction h with
  | nil =>
    intro x hx
    simp only [histUpdateAt, List.mem_singleton] at hx
    subst hx
    exact wfCounter_update [] c List.nodup_nil
  | cons ec0 rest ih =>
    obtain ⟨e1, c1⟩ := ec0
    by_cases h1 : e1 = e
    · intro x hx
      rw [show histUpdateAt ((e1, c1) :: rest) e c = (e1, counterUpdate c1 c) :: rest by
        simp [histUpdateAt, h1]] at hx
      rcases List.mem_cons.1 hx with rfl | hx2
      · exact wfCounter_update c1 c (hcs (e1, c1) (by simp))
      · exact hcs x (by simp [hx2])
    · intro x hx
      rw [show histUpdateAt ((e1, c1) :: rest) e c = (e1, c1) :: histUpdateAt rest e c by
        simp [histUpdateAt, h1]] at hx
      rcases List.mem_cons.1 hx with rfl | hx2
      · exact hcs (e1, c1) (by simp)
      · exact ih (fun y hy => hcs y (by simp [hy])) x hx2

/-- Lemma: `histUpdateAt` keeps a histogram well-formed. -/
theorem wfHist_updateAt (h : Hist) (e : ErrKind) (c : Counter) (hh : WFHist h) :
    WFHist (histUpdateAt h e c) := by
  refine ⟨?_, wfCounters_updateAt h e c hh.2⟩
  rw [histKeys_updateAt]
  split_ifs with hm
  · exact hh.1
  · simp [List.nodup_append, hh.1, hm]

/-- Folding any entry list into a well-formed accumulator keeps it
well-formed. -/
theorem wfHist_fold (l : Hist) (acc : Hist) (hacc : WFHist acc) :
    WFHist (l.foldl (fun a ec => histUpdateAt a ec.1 ec.2) acc) := by
  induction l generalizing acc with
  | nil => exact hacc
  | cons ec rest ih => exact ih (histUpdateAt acc ec.1 ec.2) (wfHist_updateAt _ _ _ hacc)

/-- The teardown aggregate is always a well-formed histogram. -/
theorem wfHist_aggregate (ws : List WorkerSt) : WFHist (aggregateErrors ws) := by
  have haux : ∀ (l : List WorkerSt) (acc : Hist), WFHist acc →
      WFHist (l.foldl
        (fun acc2 w => w.ignored_errors.foldl (fun a2 ec => histUpdateAt a2 ec.1 ec.2) acc2)
        acc) := by
    intro l
    induction l with
    | nil => exact fun acc hacc => hacc
    | cons w rest ih =>
      exact fun acc hacc => ih _ (wfHist_fold w.ignored_errors acc hacc)
  exact haux ws [] ⟨List.nodup_nil, by simp⟩

/-- At a key outside a counter's key list the total is zero. -/
theorem counterMass_of_not_mem (c : Counter) (a : ActionClass)
    (h : a ∉ counterKeys c) : counterMass c a = 0 := by
  induction c with
  | nil => rfl
  | cons kv rest ih =>
    obtain ⟨k, v⟩ := kv
    rw [counterKeys_cons, List.mem_cons, not_or] at h
    simp only [counterMass, if_neg (fun hh : k = a => h.1 hh.symm), ih h.2]

/-- On a unique-keyed counter, dict lookup equals the summed total. -/
theorem counterGet_eq_mass (c : Counter) (hc : WFCounter c) (a : ActionClass) :
    counterGet c a = counterMass c a := by
  induction c with
  | nil => rfl
  | cons kv rest ih =>
    obtain ⟨k, v⟩ := kv
    have hc' : (counterKeys ((k, v) :: rest)).Nodup := hc
    rw [counterKeys_cons, List.nodup_cons] at hc'
    by_cases h : k = a
    · subst h
      simp [counterGet, counterMass, counterMass_of_not_mem rest k hc'.1]
    · simp [counterGet, counterMass, h, ih hc'.2]

/-- At an error kind outside a histogram's outer keys the total is
zero. -/
theorem histMass_of_not_mem (h : Hist) (e : ErrKind) (he : e ∉ histKeys h)
    (a : ActionClass) : histMass h e a = 0 := by
  induction h with
  | nil => rfl
  | cons ec rest ih =>
    obtain ⟨e1, c1⟩ := ec
    rw [histKeys_cons, List.mem_cons, not_or] at he
    simp only [histMass, if_neg (fun hh : e1 = e => he.1 hh.symm), ih he.2]

/-- On a well-formed histogram, dict lookup followed by dict lookup
equals the summed total. -/
theorem histGet_eq_mass (h : Hist) (hh : WFHist h) (e : ErrKind) (a : ActionClass) :
    counterGet (histGet h e) a = histMass h e a := by
  induction h with
  | nil => rfl
  | cons ec rest ih =>
    obtain ⟨e1, c1⟩ := ec
    obtain ⟨hk, hcs⟩ := hh
    rw [histKeys_cons, List.nodup_cons] at hk
    by_cases h1 : e1 = e
    · subst h1
      simp [histGet, histMass, histMass_of_not_mem rest e1 hk.1,
        counterGet_eq_mass c1 (hcs (e1, c1) (by simp))]
    · simp [histGet, histMass, h1, ih ⟨hk.2, fun x hx => hcs x (by simp [hx])⟩]

/-- Claim C2 (confirmed): for every list of workers whose error
histograms are well-formed dicts-of-dicts, the combined histogram built
by the teardown aggregation (lines 294-298) holds, at every
(error-kind, operation-class) key, exactly the sum over all workers of
that worker's count at the same key — no count duplicated, none lost. -/
theorem c2_aggregate_exact_sum (ws : List WorkerSt)
    (hw : ∀ w ∈ ws, WFHist w.ignored_errors) (e : ErrKind) (a : ActionClass) :
    counterGet (histGet (aggregateErrors ws) e) a
      = (ws.map (fun w => counterGet (histGet w.ignored_errors e) a)).sum := by
  rw [histGet_eq_mass _ (wfHist_aggregate ws), histMass_aggregate]
  refine congrArg List.sum ?_
  refine List.map_congr_left ?_
  intro w hmem
  exact (histGet_eq_mass _ (hw w hmem) e a).symm

/-- Witness for C2: two workers sharing the key ("err", "A") with
counts 2 and 3; the aggregate holds 5 there. -/
theorem c2_aggregate_exact_sum_witness :
    counterGet (histGet (aggregateErrors
        [{ num_queries := 0, end_time := 0, ignored_errors := [("err", [("A", 2)])] },
         { num_queries := 0, end_time := 0,
           ignored_errors := [("err", [("A", 3), ("B", 1)])] }]) "err") "A" = 5 :=
  (c2_aggregate_exact_sum
    [{ num_queries := 0, end_time := 0, ignored_errors := [("err", [("A", 2)])] },
     { num_queries := 0, end_time := 0,
       ignored_errors := [("err", [("A", 3), ("B", 1)])] }]
    (by decide) "err" "A").trans (by decide)

/-! ## Monitor-loop lemmas -/

/-- Applying one increment per worker preserves the worker count. -/
theorem applyIncs_length (ws : List WorkerSt) (incs : List Nat)
    (h : incs.length = ws.length) : (applyIncs ws incs).length = ws.length := by
  simp [applyIncs, h]

/-- Resetting counters preserves the worker count. -/
theorem resetCounters_length (ws : List WorkerSt) :
    (resetCounters ws).length = ws.length := by
  simp [resetCounters]

/-- Forcing deadlines preserves the worker count. -/
theorem forceEnd_length (t : ℚ) (ws : List WorkerSt) :
    (forceEnd t ws).length = ws.length := by
  simp [forceEnd]

/-- Reading the counters after one increment per worker sees the old
total plus all the increments. -/
theorem sumCounters_applyIncs : ∀ (ws : List WorkerSt) (incs : List Nat),
    incs.length = ws.length →
    sumCounters (applyIncs ws incs) = sumCounters ws + incs.sum
  | [], [], _ => by simp [applyIncs, sumCounters]
  | [], _ :: _, h => by simp at h
  | _ :: _, [], h => by simp at h
  | w :: ws, i :: incs, h => by
    have h' : incs.length = ws.length := by simpa using h
    have ih := sumCounters_applyIncs ws incs h'
    simp only [applyIncs, List.zipWith_cons_cons, sumCounters, List.map_cons,
      List.sum_cons] at ih ⊢
    omega

/-- After a reset every counter reads zero. -/
theorem sumCounters_reset (ws : List WorkerSt) :
    sumCounters (resetCounters ws) = 0 := by
  induction ws with
  | nil => rfl
  | cons w rest ih => simpa [resetCounters, sumCounters] using ih

/-- Forcing deadlines does not touch the counters. -/
theorem sumCounters_forceEnd (t : ℚ) (ws : List WorkerSt) :
    sumCounters (forceEnd t ws) = sumCounters ws := by
  induction ws with
  | nil => rfl
  | cons w rest ih => simpa [forceEnd, sumCounters] using ih

/-- The monitor loop never changes how many workers there are. -/
theorem monitorLoop_length (endTime : ℚ) (tn : List String) :
    ∀ (iters : List Iter) (s : RunState), IncsMatch iters s.workers.length →
    (monitorLoop endTime tn iters s).1.workers.length = s.workers.length := by
  intro iters
  induction iters with
  | nil => intro s _; rfl
  | cons it rest ih =>
    intro s hm
    obtain ⟨tc, di, tf, incs, ib, ti⟩ := it
    have hlen1 : incs.length = s.workers.length :=
      hm ⟨tc, di, tf, incs, ib, ti⟩ (by simp)
    by_cases htc : tc < endTime
    · cases di with
      | some i => simp [monitorLoop, htc, forceEnd_length]
      | none =>
        cases ib with
        | true =>
          simp [monitorLoop, htc, forceEnd_length, applyIncs_length _ _ hlen1]
        | false =>
          have hm' : IncsMatch rest
              (resetCounters (applyIncs s.workers incs)).length := by
            intro x hx
            rw [resetCounters_length, applyIncs_length _ _ hlen1]
            exact hm x (by simp [hx])
          have hrec := ih ⟨resetCounters (applyIncs s.workers incs),
            s.acc + sumCounters (applyIncs s.workers incs)⟩ hm'
          simp [monitorLoop, htc]
          rw [hrec, resetCounters_length, applyIncs_length _ _ hlen1]
    · simp [monitorLoop, htc]

/-- Conservation of successful-query counts: over a monitor loop that
ends by time or by a caught interrupt, the accumulator plus what is left
in the worker counters equals the initial accumulator plus the initial
counter contents plus every increment the loop consumed. -/
theorem monitorLoop_conservation (endTime : ℚ) (tn : List String) :
    ∀ (iters : List Iter) (s : RunState), IncsMatch iters s.workers.length →
    ((monitorLoop endTime tn iters s).2 = .timeUp ∨
      (monitorLoop endTime tn iters s).2 = .interrupted) →
    (monitorLoop endTime tn iters s).1.acc
        + sumCounters (monitorLoop endTime tn iters s).1.workers
      = s.acc + sumCounters s.workers + consumedQueries endTime iters := by
  intro iters
  induction iters with
  | nil =>
    intro s _ hnorm
    simp [monitorLoop] at hnorm
  | cons it rest ih =>
    intro s hm hnorm
    obtain ⟨tc, di, tf, incs, ib, ti⟩ := it
    have hlen1 : incs.length = s.workers.length :=
      hm ⟨tc, di, tf, incs, ib, ti⟩ (by simp)
    by_cases htc : tc < endTime
    · cases di with
      | some i => simp [monitorLoop, htc] at hnorm
      | none =>
        cases ib with
        | true =>
          simp only [monitorLoop, if_pos htc] at hnorm ⊢
          simp only [consumedQueries, if_pos htc]
          simp [sumCounters_forceEnd, sumCounters_applyIncs _ _ hlen1]
          omega
        | false =>
          have hm' : IncsMatch rest
              (resetCounters (applyIncs s.workers incs)).length := by
            intro x hx
            rw [resetCounters_length, applyIncs_length _ _ hlen1]
            exact hm x (by simp [hx])
          simp only [monitorLoop, if_pos htc] at hnorm ⊢
          simp only [Bool.false_eq_true, if_false] at hnorm ⊢
          have hrec := ih ⟨resetCounters (applyIncs s.workers incs),
            s.acc + sumCounters (applyIncs s.workers incs)⟩ hm' hnorm
          rw [hrec]
          simp only [consumedQueries, if_pos htc]
          rw [sumCounters_reset, sumCounters_applyIncs _ _ hlen1]
          simp
          omega
    · simp only [monitorLoop, if_neg htc, consumedQueries]
      omega

/-! ## Claim C1 -/

/-- Claim C1 is false as stated: the printed total of executed queries
does not equal the whole-run total.  Concrete run: one worker, one
completed report interval with 3 queries, then the deadline passes and
the worker completes 2 more queries before stopping.  The summary prints
3 executed queries while 5 were executed over the whole run. -/
theorem c1_printed_total_counterexample :
    (finishRun 20 ["worker_0"] [⟨0, none, 0, [3], false, 0⟩, ⟨21, none, 0, [], false, 0⟩]
        [2] ⟨[⟨0, 20, []⟩], 0⟩).printedQueries = some 3 ∧
    totalExecuted 20 [⟨0, none, 0, [3], false, 0⟩, ⟨21, none, 0, [], false, 0⟩]
        [2] ⟨[⟨0, 20, []⟩], 0⟩ = 5 ∧
    (finishRun 20 ["worker_0"] [⟨0, none, 0, [3], false, 0⟩, ⟨21, none, 0, [], false, 0⟩]
        [2] ⟨[⟨0, 20, []⟩], 0⟩).printedQueries
      ≠ some (totalExecuted 20 [⟨0, none, 0, [3], false, 0⟩, ⟨21, none, 0, [], false, 0⟩]
        [2] ⟨[⟨0, 20, []⟩], 0⟩) := by
  refine ⟨rfl, rfl, ?_⟩
  decide

/-- Claim C1 (amended): at the end of a run that reaches teardown, the
printed total equals the sum of the per-worker counts captured at the
monitor's report boundaries; it falls short of the whole-run executed
total by exactly the queries still sitting in the worker counters at
print time (those executed after the last boundary).  The printed
failure percentage is `100 * num_failures / printed-total` (0 when the
printed total is zero), with `num_failures` the total count of the
aggregated error histogram. -/
theorem c1_printed_total_boundary (endTime : ℚ) (tn : List String) (iters : List Iter)
    (tail : List Nat) (s : RunState) (hacc : s.acc = 0)
    (hlen : IncsMatch iters s.workers.length) (htail : tail.length = s.workers.length)
    (hexit : NormalExit (finishRun endTime tn iters tail s)) :
    (finishRun endTime tn iters tail s).printedQueries.isSome = true ∧
    (finishRun endTime tn iters tail s).printedQueries.getD 0
        + sumCounters (finishRun endTime tn iters tail s).finalWorkers
      = totalExecuted endTime iters tail s ∧
    (finishRun endTime tn iters tail s).printedFailed
      = some (if (finishRun endTime tn iters tail s).printedQueries.getD 0 = 0 then 0
          else 100 * ((numFailures (aggregateErrors
              (finishRun endTime tn iters tail s).finalWorkers) : ℚ))
            / (((finishRun endTime tn iters tail s).printedQueries.getD 0 : Nat) : ℚ)) := by
  rcases hml : monitorLoop endTime tn iters s with ⟨s', ex⟩
  have hlenp := monitorLoop_length endTime tn iters s hlen
  rw [hml] at hlenp
  simp only [Prod.fst] at hlenp
  cases ex with
  | failed nm =>
    exfalso
    simp [finishRun, hml, NormalExit] at hexit
  | ranOut =>
    exfalso
    simp [finishRun, hml, NormalExit] at hexit
  | timeUp =>
    have hcons := monitorLoop_conservation endTime tn iters s hlen (by rw [hml]; left; rfl)
    rw [hml] at hcons
    simp only [Prod.fst] at hcons
    have hsum := sumCounters_applyIncs s'.workers tail (htail.trans hlenp.symm)
    refine ⟨?_, ?_, ?_⟩
    · simp [finishRun, hml]
    · simp [finishRun, hml, totalExecuted, hsum]
      omega
    · simp [finishRun, hml]
  | interrupted =>
    have hcons := monitorLoop_conservation endTime tn iters s hlen (by rw [hml]; right; rfl)
    rw [hml] at hcons
    simp only [Prod.fst] at hcons
    have hsum := sumCounters_applyIncs s'.workers tail (htail.trans hlenp.symm)
    refine ⟨?_, ?_, ?_⟩
    · simp [finishRun, hml]
    · simp [finishRun, hml, totalExecuted, hsum]
      omega
    · simp [finishRun, hml]

/-- Witness for C1: the amended statement applied to a concrete trace
(one worker, one captured interval of 3 queries, a tail of 2). -/
theorem c1_printed_total_boundary_witness :
    (finishRun 20 [] [⟨0, none, 0, [3], false, 0⟩, ⟨21, none, 0, [0], false, 0⟩]
        [2] ⟨[⟨0, 20, []⟩], 0⟩).printedQueries.isSome = true ∧
    (finishRun 20 [] [⟨0, none, 0, [3], false, 0⟩, ⟨21, none, 0, [0], false, 0⟩]
        [2] ⟨[⟨0, 20, []⟩], 0⟩).printedQueries.getD 0
        + sumCounters (finishRun 20 [] [⟨0, none, 0, [3], false, 0⟩, ⟨21, none, 0, [0], false, 0⟩]
        [2] ⟨[⟨0, 20, []⟩], 0⟩).finalWorkers
      = totalExecuted 20 [⟨0, none, 0, [3], false, 0⟩, ⟨21, none, 0, [0], false, 0⟩]
        [2] ⟨[⟨0, 20, []⟩], 0⟩ ∧
    (finishRun 20 [] [⟨0, none, 0, [3], false, 0⟩, ⟨21, none, 0, [0], false, 0⟩]
        [2] ⟨[⟨0, 20, []⟩], 0⟩).printedFailed
      = some (if (finishRun 20 [] [⟨0, none, 0, [3], false, 0⟩, ⟨21, none, 0, [0], false, 0⟩]
        [2] ⟨[⟨0, 20, []⟩], 0⟩).printedQueries.getD 0 = 0 then 0
          else 100 * ((numFailures (aggregateErrors
              (finishRun 20 [] [⟨0, none, 0, [3], false, 0⟩, ⟨21, none, 0, [0], false, 0⟩]
        [2] ⟨[⟨0, 20, []⟩], 0⟩).finalWorkers) : ℚ))
            / (((finishRun 20 [] [⟨0, none, 0, [3], false, 0⟩, ⟨21, none, 0, [0], false, 0⟩]
        [2] ⟨[⟨0, 20, []⟩], 0⟩).printedQueries.getD 0 : Nat) : ℚ)) :=
  c1_printed_total_boundary 20 [] [⟨0, none, 0, [3], false, 0⟩, ⟨21, none, 0, [0], false, 0⟩]
    [2] ⟨[⟨0, 20, []⟩], 0⟩ rfl (by decide) (by decide) (by decide)

/-! ## Claim C3 -/

/-- Counter increments do not move any deadline. -/
theorem endsLE_applyIncs (e0 : ℚ) : ∀ (ws : List WorkerSt) (incs : List Nat),
    EndsLE e0 ws → EndsLE e0 (applyIncs ws incs) := by
  intro ws
  induction ws with
  | nil =>
    intro incs _ w hw
    simp [applyIncs] at hw
  | cons w0 rest ih =>
    intro incs h w hw
    cases incs with
    | nil => simp [applyIncs] at hw
    | cons i irest =>
      simp only [applyIncs, List.zipWith_cons_cons, List.mem_cons] at hw
      rcases hw with rfl | hw2
      · exact h w0 (by simp)
      · exact ih irest (fun y hy => h y (by simp [hy])) w hw2

/-- Counter resets do not move any deadline. -/
theorem endsLE_reset (e0 : ℚ) (ws : List WorkerSt) (h : EndsLE e0 ws) :
    EndsLE e0 (resetCounters ws) := by
  intro x hx
  simp only [resetCounters, List.mem_map] at hx
  obtain ⟨w, hw, rfl⟩ := hx
  exact h w hw

/-- A forced write leaves every deadline at the written observation. -/
theorem endsLE_forceEnd (e0 t : ℚ) (ws : List WorkerSt) (ht : t ≤ e0) :
    EndsLE e0 (forceEnd t ws) := by
  intro x hx
  simp only [forceEnd, List.mem_map] at hx
  obtain ⟨w, hw, rfl⟩ := hx
  exact ht

/-- Claim C3 (amended): every forced write stores the `time.time()`
observation of the moment of the write; as long as every such
observation in the trace is no later than the bound `e0` that every
worker's deadline starts below — the normal case, since the monitor loop
only runs while the clock reads less than the deadline — the deadlines
never move past `e0`: a forced write can only shorten the remaining
runtime.  (An interrupt delivered after the deadline already passed
mid-sleep can violate the bound; see the counterexample.) -/
theorem c3_forced_writes_bounded (endTime : ℚ) (tn : List String) (iters : List Iter)
    (s : RunState) (e0 : ℚ) (h0 : EndsLE e0 s.workers) (ht : ForcedWithin e0 iters) :
    EndsLE e0 (monitorLoop endTime tn iters s).1.workers := by
  revert h0 ht
  induction iters generalizing s with
  | nil => intro h0 _; exact h0
  | cons it rest ih =>
    intro h0 ht
    obtain ⟨tc, di, tf, incs, ib, ti⟩ := it
    have htf : tf ≤ e0 := (ht ⟨tc, di, tf, incs, ib, ti⟩ (by simp)).1
    have hti : ti ≤ e0 := (ht ⟨tc, di, tf, incs, ib, ti⟩ (by simp)).2
    have ht' : ForcedWithin e0 rest := fun x hx => ht x (by simp [hx])
    by_cases htc : tc < endTime
    · cases di with
      | some i =>
        simp only [monitorLoop, if_pos htc]
        exact endsLE_forceEnd e0 tf s.workers htf
      | none =>
        cases ib with
        | true =>
          simp only [monitorLoop, if_pos htc, if_pos rfl]
          exact endsLE_forceEnd e0 ti (applyIncs s.workers incs) hti
        | false =>
          simp only [monitorLoop, if_pos htc, Bool.false_eq_true, if_false]
          exact ih ⟨resetCounters (applyIncs s.workers incs),
              s.acc + sumCounters (applyIncs s.workers incs)⟩
            (endsLE_reset e0 _ (endsLE_applyIncs e0 s.workers incs h0)) ht'
    · simp only [monitorLoop, if_neg htc]
      exact h0

/-- Witness for C3: the amended statement applied to a concrete trace
whose one forced write (a dead thread at observation 3) stays below the
initial deadline 600. -/
theorem c3_forced_writes_bounded_witness :
    EndsLE 600 (monitorLoop 600 [] [⟨5, none, 3, [0], false, 0⟩]
      ⟨[⟨0, 600, []⟩], 0⟩).1.workers :=
  c3_forced_writes_bounded 600 [] [⟨5, none, 3, [0], false, 0⟩]
    ⟨[⟨0, 600, []⟩], 0⟩ 600 (by decide) (by decide)

/-- Claim C3 is false as stated: a `KeyboardInterrupt` delivered during
the sleep of an iteration that started before the deadline, but handled
only after the deadline passed (here at observation 605 with the
deadline at 600), writes 605 over the stored 600 — a strictly later
value. -/
theorem c3_counterexample :
    ((monitorLoop 600 ["worker_0"] [⟨595, none, 0, [0], true, 605⟩]
        ⟨[⟨0, 600, []⟩], 0⟩).1.workers.map (fun w => w.end_time)) = [605] ∧
    ¬ ((605 : ℚ) ≤ (600 : ℚ)) := by
  constructor
  · decide
  · decide

/-! ## Claim C8 -/

/-- When the monitor loop exits through the dead-thread `raise`, some
iteration entered with the clock before the deadline, observed a dead
thread, and every worker's deadline was set to that iteration's forced
observation. -/
theorem monitorLoop_failed_spec (endTime : ℚ) (tn : List String) :
    ∀ (iters : List Iter) (s : RunState) (nm : String),
    (monitorLoop endTime tn iters s).2 = .failed nm →
    ∃ it ∈ iters, it.tCheck < endTime ∧ it.deadIdx.isSome = true ∧
      ∀ w ∈ (monitorLoop endTime tn iters s).1.workers, w.end_time = it.tFail := by
  intro iters
  induction iters with
  | nil =>
    intro s nm h
    simp [monitorLoop] at h
  | cons it rest ih =>
    intro s nm h
    obtain ⟨tc, di, tf, incs, ib, ti⟩ := it
    by_cases htc : tc < endTime
    · cases di with
      | some i =>
        refine ⟨⟨tc, some i, tf, incs, ib, ti⟩, by simp, htc, by simp, ?_⟩
        simp only [monitorLoop, if_pos htc]
        intro w hw
        simp only [forceEnd, List.mem_map] at hw
        obtain ⟨w', _, rfl⟩ := hw
        rfl
      | none =>
        cases ib with
        | true => simp [monitorLoop, htc] at h
        | false =>
          have h' : (monitorLoop endTime tn rest
              ⟨resetCounters (applyIncs s.workers incs),
               s.acc + sumCounters (applyIncs s.workers incs)⟩).2 = .failed nm := by
            simpa [monitorLoop, htc] using h
          obtain ⟨it2, hmem, h1, h2, h3⟩ := ih _ nm h'
          refine ⟨it2, by simp [hmem], h1, h2, ?_⟩
          simp only [monitorLoop, if_pos htc, Bool.false_eq_true, if_false]
          exact h3
    · simp [monitorLoop, htc] at h

/-- Claim C8 (confirmed): if the monitor loop observes a dead worker
thread, every worker's deadline is set to the forced observation of that
iteration and the run ends abnormally through the thread-failure
`raise`: the remaining threads are not joined, the databases are not
dropped, and the normal summary (executed total and failure percentage)
is never printed. -/
theorem c8_dead_thread_aborts (endTime : ℚ) (tn : List String) (iters : List Iter)
    (tail : List Nat) (s : RunState) (nm : String)
    (hexit : (finishRun endTime tn iters tail s).exit = .failed nm) :
    (finishRun endTime tn iters tail s).printedQueries = none ∧
    (finishRun endTime tn iters tail s).printedFailed = none ∧
    (finishRun endTime tn iters tail s).joined = false ∧
    (finishRun endTime tn iters tail s).toreDown = false ∧
    (finishRun endTime tn iters tail s).raisedMsg = some (failMessage nm) ∧
    ∃ it ∈ iters, it.tCheck < endTime ∧ it.deadIdx.isSome = true ∧
      ∀ w ∈ (finishRun endTime tn iters tail s).finalWorkers, w.end_time = it.tFail := by
  rcases hml : monitorLoop endTime tn iters s with ⟨s', ex⟩
  cases ex with
  | failed nm' =>
    have hnm : nm' = nm := by
      have := hexit
      simp only [finishRun, hml] at this
      simpa using this
    subst hnm
    have hspec := monitorLoop_failed_spec endTime tn iters s nm' (by rw [hml])
    rw [hml] at hspec
    simp only [Prod.fst] at hspec
    obtain ⟨it, hmem, h1, h2, h3⟩ := hspec
    refine ⟨?_, ?_, ?_, ?_, ?_, it, hmem, h1, h2, ?_⟩
    · simp [finishRun, hml]
    · simp [finishRun, hml]
    · simp [finishRun, hml]
    · simp [finishRun, hml]
    · simp [finishRun, hml]
    · simp only [finishRun, hml]
      exact h3
  | timeUp => exfalso; simp [finishRun, hml] at hexit
  | interrupted => exfalso; simp [finishRun, hml] at hexit
  | ranOut => exfalso; simp [finishRun, hml] at hexit

/-- Witness for C8: a concrete run whose first iteration (clock 5,
deadline 600) observes thread 0 dead; the run aborts with the
thread-failure message and no summary. -/
theorem c8_dead_thread_aborts_witness :
    (finishRun 600 ["worker_0"] [⟨5, some 0, 7, [], false, 0⟩] []
        ⟨[⟨0, 600, []⟩], 0⟩).printedQueries = none ∧
    (finishRun 600 ["worker_0"] [⟨5, some 0, 7, [], false, 0⟩] []
        ⟨[⟨0, 600, []⟩], 0⟩).joined = false ∧
    (finishRun 600 ["worker_0"] [⟨5, some 0, 7, [], false, 0⟩] []
        ⟨[⟨0, 600, []⟩], 0⟩).raisedMsg = some (failMessage "worker_0") :=
  ⟨(c8_dead_thread_aborts 600 ["worker_0"] [⟨5, some 0, 7, [], false, 0⟩] []
      ⟨[⟨0, 600, []⟩], 0⟩ "worker_0" (by decide)).1,
   (c8_dead_thread_aborts 600 ["worker_0"] [⟨5, some 0, 7, [], false, 0⟩] []
      ⟨[⟨0, 600, []⟩], 0⟩ "worker_0" (by decide)).2.2.1,
   (c8_dead_thread_aborts 600 ["worker_0"] [⟨5, some 0, 7, [], false, 0⟩] []
      ⟨[⟨0, 600, []⟩], 0⟩ "worker_0" (by decide)).2.2.2.2.1⟩

/-! ## Claims C4-C7, C9, C10 -/

/-- Claim C5 is false as stated: the category weight vectors do not sum
to one fixed total — the full tier sums to 160 while the reduced tier
sums to 150 (and the read-only tier to 90). -/
theorem c5_weight_sums_counterexample :
    (weightsFor Complexity.DDL).sum ≠ (weightsFor Complexity.DML).sum := by
  decide

/-- Claim C5 (amended): each complexity tier's five-element category
weight vector is fixed — [60,30,30,30,10], [60,30,30,30,0] and
[60,30,0,0,0] with sums 160, 150 and 90 respectively (not one shared
total) — and the schema-change (ddl, fifth) category weight is exactly
zero for the reduced (dml) and read-only tiers. -/
theorem c5_weight_vectors :
    weightsFor Complexity.DDL = [60, 30, 30, 30, 10] ∧
    weightsFor Complexity.DML = [60, 30, 30, 30, 0] ∧
    weightsFor Complexity.Read = [60, 30, 0, 0, 0] ∧
    (weightsFor Complexity.DDL).length = 5 ∧
    (weightsFor Complexity.DML).length = 5 ∧
    (weightsFor Complexity.Read).length = 5 ∧
    (weightsFor Complexity.DDL).sum = 160 ∧
    (weightsFor Complexity.DML).sum = 150 ∧
    (weightsFor Complexity.Read).sum = 90 ∧
    (weightsFor Complexity.DML).getD 4 1 = 0 ∧
    (weightsFor Complexity.Read).getD 4 1 = 0 := by
  decide

/-- Claim C4 is false as stated: with one worker slot and the
unrecognized scenario value "bogus", `run` does raise — but only after
the base worker thread has already been started (one started thread, not
zero). -/
theorem c4_unknown_scenario_counterexample :
    (buildPopulation sampleCatalog Complexity.DDL "bogus" 1 pick0 600 true).error
      = some "Unknown scenario bogus" ∧
    (buildPopulation sampleCatalog Complexity.DDL "bogus" 1 pick0 600 true).threads.length
      = 1 := by
  constructor
  · rfl
  · rfl

/-- Claim C4 (amended): for every unrecognized scenario value, `run`
raises `Unknown scenario ...` during the scenario dispatch — after all
`num_threads` base worker threads have been started, but before any
scenario worker thread is started and before the monitor loop begins:
the started threads are exactly the base threads. -/
theorem c4_unknown_scenario_raises (cat : ActionCatalog) (c : Complexity) (n : Nat)
    (pick : Nat → Fin 5) (e : ℚ) (comp : Bool) (scen : String)
    (h : scen ∉ ["regression", "rename", "cancel", "kill", "backup-restore"]) :
    (buildPopulation cat c scen n pick e comp).error
      = some ("Unknown scenario " ++ scen) ∧
    (buildPopulation cat c scen n pick e comp).threads.length = n ∧
    (buildPopulation cat c scen n pick e comp).threads
      = (List.range n).map mkBaseThread := by
  have h1 : ¬(scen = "cancel") := fun hh => h (by simp [hh])
  have h2 : ¬(scen = "kill") := fun hh => h (by simp [hh])
  have h3 : ¬(scen = "backup-restore") := fun hh => h (by simp [hh])
  have h4 : ¬(scen = "regression" ∨ scen = "rename") := by
    rintro (hh | hh) <;> exact h (by simp [hh])
  have hsa : scenarioAdditions scen comp e = .error ("Unknown scenario " ++ scen) := by
    simp [scenarioAdditions, h1, h2, h3, h4]
  refine ⟨?_, ?_, ?_⟩ <;> simp [buildPopulation, hsa]

/-- Witness for C4 (amended): the unrecognized scenario "bogus" with two
base slots. -/
theorem c4_unknown_scenario_raises_witness :
    (buildPopulation sampleCatalog Complexity.DML "bogus" 2 pick0 600 false).error
      = some ("Unknown scenario " ++ "bogus") ∧
    (buildPopulation sampleCatalog Complexity.DML "bogus" 2 pick0 600 false).threads.length
      = 2 ∧
    (buildPopulation sampleCatalog Complexity.DML "bogus" 2 pick0 600 false).threads
      = (List.range 2).map mkBaseThread :=
  c4_unknown_scenario_raises sampleCatalog Complexity.DML 2 pick0 600 false "bogus"
    (by decide)

/-- Claim C6's failing input evaluated: with two worker slots the
construction hands worker 0 and worker 1 the very same random stream —
the single `worker_rng` allocated once before the loop — and every one
of their operation instances is constructed with that same stream as
well.  This contradicts the claim that no two workers share a random
stream (and defeats per-worker reproducibility from the top-level
seed). -/
theorem c6_shared_worker_rng :
    ((buildPopulation sampleCatalog Complexity.DDL "regression" 2 pick0 600 true).workers.map
        (fun w => w.rng)) = [workerRngStream, workerRngStream] ∧
    ((buildPopulation sampleCatalog Complexity.DDL "regression" 2 pick0 600 true).workers.map
        (fun w => w.actions.map (fun p => p.2)))
      = [[workerRngStream], [workerRngStream]] := by
  constructor
  · rfl
  · rfl

/-- Claim C7 (confirmed): under the cancel scenario the final population
has exactly `num_threads + 1` workers; the extra worker appended last
carries exactly one operation (the cancel action) with weight vector
`[1]`, runs with `system=True`, and its thread connects through
`ports["mz_system"]` as the privileged `mz_system` user. -/
theorem c7_cancel_population (cat : ActionCatalog) (c : Complexity) (n : Nat)
    (pick : Nat → Fin 5) (e : ℚ) (comp : Bool) :
    (buildPopulation cat c "cancel" n pick e comp).workers.length = n + 1 ∧
    (buildPopulation cat c "cancel" n pick e comp).workers.getLast? = some (cancelWorker e) ∧
    (cancelWorker e).actions.length = 1 ∧
    (cancelWorker e).actions = [(ActionKind.cancel, workerRngStream)] ∧
    (cancelWorker e).weights = [1] ∧
    (cancelWorker e).system = true ∧
    (buildPopulation cat c "cancel" n pick e comp).threads.getLast? = some cancelThread ∧
    cancelThread.portKey = "mz_system" ∧
    cancelThread.user = "mz_system" := by
  have hsa : scenarioAdditions "cancel" comp e = .ok ([cancelWorker e], [cancelThread]) := rfl
  refine ⟨?_, ?_, rfl, rfl, rfl, rfl, ?_, rfl, rfl⟩
  · simp [buildPopulation, hsa]
  · simp [buildPopulation, hsa, List.getLast?_concat]
  · simp [buildPopulation, hsa, List.getLast?_concat]

/-- Claim C10 (confirmed): the backup-restore scenario's extra thread is
created with the name "kill" — the same name the kill scenario's thread
gets — so the fatal report produced when that thread dies reads
"Thread kill failed, exiting" and labels the backup-restore worker as
"kill". -/
theorem c10_backup_restore_thread_named_kill (cat : ActionCatalog) (c : Complexity)
    (n : Nat) (pick : Nat → Fin 5) (e : ℚ) :
    (buildPopulation cat c "backup-restore" n pick e true).threads.getLast?
      = some backupRestoreThread ∧
    backupRestoreThread.name = "kill" ∧
    (buildPopulation cat c "kill" n pick e true).threads.getLast? = some killThread ∧
    killThread.name = "kill" ∧
    backupRestoreThread.name = killThread.name ∧
    failMessage backupRestoreThread.name = "Thread kill failed, exiting" := by
  have hsa : scenarioAdditions "backup-restore" true e
      = .ok ([backupRestoreWorker e], [backupRestoreThread]) := rfl
  have hsk : scenarioAdditions "kill" true e = .ok ([killWorker e], [killThread]) := rfl
  refine ⟨?_, rfl, ?_, rfl, rfl, rfl⟩
  · simp [buildPopulation, hsa, List.getLast?_concat]
  · simp [buildPopulation, hsk, List.getLast?_concat]

/-- Claim C9's failing input evaluated: with `--port=7000
--system-port=7001 --http-port=7002` supplied, the ports dict `main`
passes to `run` still maps every key to the hardcoded defaults
(6875/6877/6876); the parsed override flags are never read. -/
theorem c9_ports_ignore_flags :
    portsLookup (mainPorts ⟨"localhost", 7000, 7001, 7002⟩) "materialized" = some 6875 ∧
    portsLookup (mainPorts ⟨"localhost", 7000, 7001, 7002⟩) "mz_system" = some 6877 ∧
    portsLookup (mainPorts ⟨"localhost", 7000, 7001, 7002⟩) "http" = some 6876 ∧
    portsLookup (mainPorts ⟨"localhost", 7000, 7001, 7002⟩) "materialized" ≠ some 7000 ∧
    portsLookup (mainPorts ⟨"localhost", 7000, 7001, 7002⟩) "mz_system" ≠ some 7001 ∧
    portsLookup (mainPorts ⟨"localhost", 7000, 7001, 7002⟩) "http" ≠ some 7002 := by
  decide
